import Mathlib

/-!
Verification of the "15 Seconds of Fame" scoring and budget-control pipeline.

The backend pipeline (Segmenter, BudgetTracker, RuleBasedScorer, ScoreCombiner,
ranking, per-video budget gating) is shipped with this repository only through
its design documents, so those components are modelled here directly from the
specification text.  The browser-side utilities (`extractVideoId` in
`frontend/src/utils/video.ts` and the saved-clip store in the storage module)
are present as TypeScript source and are embedded from that source.

Durations, scores and currency amounts are modelled as rationals (`ℚ`);
the source language's floating-point numbers are treated as exact reals,
which is faithful for every concrete value appearing in the claims.
-/

/-- Clamp a score into the interval `[0, 10]`, as every score-producing
component of the pipeline does before returning. -/
def clampTen (x : ℚ) : ℚ :=
  if x < 0 then 0 else if 10 < x then 10 else x

theorem clampTen_nonneg (x : ℚ) : 0 ≤ clampTen x := by
  unfold clampTen
  split_ifs with h1 h2
  · exact le_refl 0
  · norm_num
  · exact le_of_not_lt h1

theorem clampTen_le_ten (x : ℚ) : clampTen x ≤ 10 := by
  unfold clampTen
  split_ifs with h1 h2
  · norm_num
  · exact le_refl 10
  · exact le_of_not_lt h2

theorem clampTen_of_mem (x : ℚ) (h0 : 0 ≤ x) (h10 : x ≤ 10) : clampTen x = x := by
  unfold clampTen
  rw [if_neg (not_lt.mpr h0), if_neg (not_lt.mpr h10)]

/-! ## Segmenter

Modelled from the spec (§4.1): given `duration` and a nominal window length
`W` (default 15 s) and a minimum-tail threshold `M`, produce an ordered
sequence of segments covering `[0, duration)`.  Full windows of length `W`
are emitted until the remainder `r = duration mod W`; if `r ≥ M` a final
shorter segment of length `r` is emitted; if `0 < r < M` the remainder is
merged into the previous segment by extending its end to `duration`.
If `duration < W` a single segment spans the whole video regardless of `M`.
Fails with `InvalidDurationError` when `duration ≤ 0`. -/

/-- The segmentation error taxonomy of the spec (§7): only invalid input
to the Segmenter is fatal. -/
inductive SegError where
  | invalidDuration
deriving DecidableEq

/-- The `n` full nominal windows `[0,W), [W,2W), …, [(n-1)W, nW)`. -/
def fullWindows (W : ℚ) : ℕ → List (ℚ × ℚ)
  | 0 => []
  | n + 1 => fullWindows W n ++ [((n : ℚ) * W, ((n : ℚ) + 1) * W)]

/-- Modelled from the spec: the Segmenter of §4.1 (the backend module that
splits the `[0, duration)` timeline; its Python source is not part of this
snapshot).  Segments are `(start_time, end_time)` pairs in seconds. -/
def segmenter (d W M : ℚ) : Except SegError (List (ℚ × ℚ)) :=
  if d ≤ 0 then .error .invalidDuration
  else if d < W then .ok [(0, d)]
  else
    let n : ℕ := (⌊d / W⌋).toNat
    let r : ℚ := d - (n : ℚ) * W
    if r = 0 then .ok (fullWindows W n)
    else if M ≤ r then .ok (fullWindows W n ++ [((n : ℚ) * W, d)])
    else .ok ((fullWindows W n).dropLast ++ [(((n : ℚ) - 1) * W, d)])

/-- Predicate `IsPartition segs a b` says the `(start, end)` pairs in `segs` tile the
half-open interval `[a, b)` exactly: each segment starts where the previous
one ended, every segment is nonempty, the first starts at `a` and the last
ends at `b`.  This is the spec's "partition `[0, duration)` exactly with no
gaps or overlaps, in increasing order". -/
def IsPartition : List (ℚ × ℚ) → ℚ → ℚ → Prop
  | [], a, b => a = b
  | (s, e) :: rest, a, b => s = a ∧ a < e ∧ IsPartition rest e b

theorem IsPartition.append {xs ys : List (ℚ × ℚ)} {a b c : ℚ}
    (hx : IsPartition xs a b) (hy : IsPartition ys b c) :
    IsPartition (xs ++ ys) a c := by
  induction xs generalizing a with
  | nil =>
      simpa [IsPartition] using hx ▸ hy
  | cons p rest ih =>
      obtain ⟨s, e⟩ := p
      obtain ⟨hs, hlt, hrest⟩ := hx
      exact ⟨hs, hlt, ih hrest⟩

theorem isPartition_fullWindows {W : ℚ} (hW : 0 < W) (n : ℕ) :
    IsPartition (fullWindows W n) 0 ((n : ℚ) * W) := by
  induction n with
  | zero => simp [fullWindows, IsPartition]
  | succ n ih =>
      have hstep : IsPartition [((n : ℚ) * W, ((n : ℚ) + 1) * W)]
          ((n : ℚ) * W) (((n : ℚ) + 1) * W) := by
        refine ⟨rfl, ?_, rfl⟩
        nlinarith
      have := IsPartition.append ih hstep
      simpa [fullWindows, Nat.cast_succ] using this

theorem segmenter_partition {d W : ℚ} (M : ℚ) (hd : 0 < d) (hW : 0 < W) :
    ∃ segs, segmenter d W M = .ok segs ∧ IsPartition segs 0 d := by
  by_cases hdW : d < W
  · refine ⟨[(0, d)], ?_, rfl, hd, rfl⟩
    unfold segmenter
    rw [if_neg (not_le.mpr hd), if_pos hdW]
  · push_neg at hdW
    set nInt := ⌊d / W⌋ with hnInt
    have hfl1 : (1 : ℤ) ≤ nInt := by
      apply Int.le_floor.mpr
      push_cast
      exact (one_le_div hW).mpr hdW
    set n : ℕ := nInt.toNat with hn
    have h1 : (n : ℤ) = nInt := Int.toNat_of_nonneg (by linarith)
    have hcast : (n : ℚ) = (nInt : ℚ) := by exact_mod_cast congrArg Int.cast h1
    have hle : (n : ℚ) * W ≤ d := by
      rw [hcast]
      exact (le_div_iff₀ hW).mp (Int.floor_le (d / W))
    have hlt : d < ((n : ℚ) + 1) * W := by
      rw [hcast]
      exact (div_lt_iff₀ hW).mp (Int.lt_floor_add_one (d / W))
    have hn1 : 1 ≤ n := by omega
    have hseg : segmenter d W M =
        (if d - (n : ℚ) * W = 0 then .ok (fullWindows W n)
         else if M ≤ d - (n : ℚ) * W then .ok (fullWindows W n ++ [((n : ℚ) * W, d)])
         else .ok ((fullWindows W n).dropLast ++ [(((n : ℚ) - 1) * W, d)])) := by
      unfold segmenter
      rw [if_neg (not_le.mpr hd), if_neg (not_lt.mpr hdW)]
    rcases eq_or_lt_of_le (show (0 : ℚ) ≤ d - (n : ℚ) * W by linarith) with hr0 | hrpos
    · refine ⟨fullWindows W n, ?_, ?_⟩
      · rw [hseg, if_pos (by linarith)]
      · have hpart := isPartition_fullWindows hW n
        have hdn : (n : ℚ) * W = d := by linarith
        rwa [hdn] at hpart
    · by_cases hM : M ≤ d - (n : ℚ) * W
      · refine ⟨fullWindows W n ++ [((n : ℚ) * W, d)], ?_, ?_⟩
        · rw [hseg, if_neg (by linarith), if_pos hM]
        · exact (isPartition_fullWindows hW n).append ⟨rfl, by linarith, rfl⟩
      · obtain ⟨m, hm⟩ : ∃ m, n = m + 1 := ⟨n - 1, by omega⟩
        rw [hm] at hseg hle hrpos hM
        have hmc : ((m + 1 : ℕ) : ℚ) = (m : ℚ) + 1 := by push_cast; ring
        refine ⟨fullWindows W m ++ [((m : ℚ) * W, d)], ?_, ?_⟩
        · rw [hseg, if_neg (by linarith), if_neg hM]
          have hdrop : (fullWindows W (m + 1)).dropLast = fullWindows W m := by
            rw [fullWindows]
            exact List.dropLast_concat
          rw [hdrop]
          have : ((m + 1 : ℕ) : ℚ) - 1 = (m : ℚ) := by rw [hmc]; ring
          rw [this]
        · refine (isPartition_fullWindows hW m).append ⟨rfl, ?_, rfl⟩
          have : (m : ℚ) * W < ((m : ℚ) + 1) * W := by nlinarith
          rw [hmc] at hle hrpos
          linarith

theorem segmenter_concrete_47 :
    segmenter 47 15 5 = .ok [(0, 15), (15, 30), (30, 47)] := by
  have hfl : (⌊(47 : ℚ) / 15⌋ : ℤ) = 3 := by
    rw [Int.floor_eq_iff]
    norm_num
  unfold segmenter
  rw [if_neg (by norm_num), if_neg (by norm_num)]
  have ht : (3 : ℤ).toNat = 3 := rfl
  simp only [hfl, ht]
  norm_num [fullWindows, List.dropLast]

theorem segmenter_ne_error (d W M : ℚ) (hd : 0 < d) :
    ∃ segs, segmenter d W M = .ok segs := by
  unfold segmenter
  rw [if_neg (not_le.mpr hd)]
  by_cases h2 : d < W
  · rw [if_pos h2]
    exact ⟨_, rfl⟩
  · rw [if_neg h2]
    dsimp only
    split_ifs <;> exact ⟨_, rfl⟩

theorem segmenter_single_of_lt (d W M : ℚ) (hd : 0 < d) (hdW : d < W) :
    segmenter d W M = .ok [(0, d)] := by
  unfold segmenter
  rw [if_neg (not_le.mpr hd), if_pos hdW]

/-- C1: for every video duration `d > 0` (window `W > 0`, tail threshold `M`)
the Segmenter succeeds and its segments partition `[0, d)` exactly — no gaps,
no overlaps, in increasing order, with the tail-merge policy applied; in
particular for `d = 47`, `W = 15`, `M = 5` the output is
`[0,15), [15,30), [30,47)` and not `[0,15), [15,30), [30,45), [45,47)`. -/
theorem C1_segmenter_partitions :
    (∀ d W M : ℚ, 0 < d → 0 < W →
        ∃ segs, segmenter d W M = .ok segs ∧ IsPartition segs 0 d) ∧
    segmenter 47 15 5 = .ok [(0, 15), (15, 30), (30, 47)] ∧
    segmenter 47 15 5 ≠ .ok [(0, 15), (15, 30), (30, 45), (45, 47)] := by
  refine ⟨fun d W M hd hW => segmenter_partition M hd hW, segmenter_concrete_47, ?_⟩
  rw [segmenter_concrete_47]
  simp

theorem C1_segmenter_partitions_witness :
    ∃ segs, segmenter 47 15 5 = .ok segs ∧ IsPartition segs 0 47 :=
  C1_segmenter_partitions.1 47 15 5 (by decide) (by decide)

/-- C7: the Segmenter fails with `InvalidDurationError` exactly when
`duration ≤ 0`; for `0 < duration < W` it emits exactly the single segment
`[0, duration)` whatever the tail threshold `M` is; in particular
`duration = 10`, `W = 15` yields `[0, 10)` for every `M`. -/
theorem C7_segmenter_error_and_short :
    (∀ d W M : ℚ, segmenter d W M = .error .invalidDuration ↔ d ≤ 0) ∧
    (∀ d W M : ℚ, 0 < d → d < W → segmenter d W M = .ok [(0, d)]) ∧
    (∀ M : ℚ, segmenter 10 15 M = .ok [(0, 10)]) := by
  refine ⟨fun d W M => ⟨?_, ?_⟩, segmenter_single_of_lt,
    fun M => segmenter_single_of_lt 10 15 M (by norm_num) (by norm_num)⟩
  · intro h
    by_contra hd
    push_neg at hd
    obtain ⟨segs, hs⟩ := segmenter_ne_error d W M hd
    rw [hs] at h
    exact Except.noConfusion h
  · intro h
    unfold segmenter
    rw [if_pos h]

theorem C7_segmenter_error_and_short_witness :
    segmenter 10 15 7 = .ok [(0, 10)] :=
  C7_segmenter_error_and_short.2.1 10 15 7 (by decide) (by decide)

/-! ## BudgetTracker

Modelled from the spec (§4.4): process-wide daily budget state with fields
`cap`, `spent`, `request_count`.  `reserve(estimatedCost)` returns `true` and
atomically increments `spent` only if `spent + estimatedCost ≤ cap`, else it
returns `false` and leaves the state unchanged. -/

/-- The spec's `BudgetState` (§3): daily cap, amount spent, request count. -/
structure BudgetState where
  cap : ℚ
  spent : ℚ
  request_count : ℕ
deriving DecidableEq

/-- Modelled from the spec: `BudgetTracker.reserve` (§4.4); the backend
Python module holding it is not part of this snapshot.  Returns the success
flag together with the post-call state. -/
def reserve (st : BudgetState) (estimatedCost : ℚ) : Bool × BudgetState :=
  if st.spent + estimatedCost ≤ st.cap then
    (true, { st with spent := st.spent + estimatedCost,
                     request_count := st.request_count + 1 })
  else
    (false, st)

/-- Folding a whole sequence of `reserve` calls over the budget state. -/
def reserveAll (st : BudgetState) : List ℚ → BudgetState
  | [] => st
  | c :: cs => reserveAll (reserve st c).2 cs

theorem reserve_cap_eq (st : BudgetState) (c : ℚ) : (reserve st c).2.cap = st.cap := by
  unfold reserve
  split_ifs <;> rfl

theorem reserve_spent_le (st : BudgetState) (c : ℚ) (h : st.spent ≤ st.cap) :
    (reserve st c).2.spent ≤ st.cap := by
  unfold reserve
  split_ifs with hc
  · exact hc
  · exact h

theorem reserve_spent_nonneg (st : BudgetState) (c : ℚ) (h0 : 0 ≤ st.spent)
    (hc : 0 ≤ c) : 0 ≤ (reserve st c).2.spent := by
  unfold reserve
  split_ifs
  · exact add_nonneg h0 hc
  · exact h0

theorem reserveAll_invariant (cs : List ℚ) (st : BudgetState)
    (h0 : 0 ≤ st.spent) (hc : st.spent ≤ st.cap) (hcs : ∀ c ∈ cs, 0 ≤ c) :
    0 ≤ (reserveAll st cs).spent ∧ (reserveAll st cs).spent ≤ st.cap := by
  induction cs generalizing st with
  | nil => exact ⟨h0, hc⟩
  | cons c rest ih =>
      have hcap := reserve_cap_eq st c
      have h0' := reserve_spent_nonneg st c h0 (hcs c (List.mem_cons_self c rest))
      have hc' : (reserve st c).2.spent ≤ (reserve st c).2.cap := by
        rw [hcap]
        exact reserve_spent_le st c hc
      have := ih (reserve st c).2 h0' hc' (fun x hx => hcs x (List.mem_cons_of_mem c hx))
      rw [reserveAll]
      rw [hcap] at this
      exact this

/-- C2: `reserve(estimatedCost)` succeeds and increments `spent` by the
estimate exactly when `spent + estimatedCost ≤ cap`, and otherwise returns
`false` leaving `cap`, `spent` and `request_count` untouched; with
`cap = 1.0`, `spent = 0.95`, `reserve(0.10)` returns `false` and `spent`
stays `0.95`; and no sequence of (nonnegative) reservations ever drives
`spent` above `cap` or below zero. -/
theorem C2_budget_reserve :
    (∀ (st : BudgetState) (c : ℚ),
        ((reserve st c).1 = true ∧ (reserve st c).2.spent = st.spent + c) ↔
          st.spent + c ≤ st.cap) ∧
    (∀ (st : BudgetState) (c : ℚ), ¬ st.spent + c ≤ st.cap →
        reserve st c = (false, st)) ∧
    ((reserve ⟨1, 0.95, 0⟩ 0.10).1 = false ∧
      (reserve ⟨1, 0.95, 0⟩ 0.10).2.spent = 0.95) ∧
    (∀ (cs : List ℚ) (st : BudgetState), 0 ≤ st.spent → st.spent ≤ st.cap →
        (∀ c ∈ cs, 0 ≤ c) →
        0 ≤ (reserveAll st cs).spent ∧ (reserveAll st cs).spent ≤ st.cap) := by
  refine ⟨fun st c => ?_, fun st c h => ?_, ?_, reserveAll_invariant⟩
  · constructor
    · rintro ⟨hb, hs⟩
      by_contra hc
      unfold reserve at hb
      rw [if_neg hc] at hb
      exact Bool.noConfusion hb
    · intro hc
      unfold reserve
      rw [if_pos hc]
      exact ⟨rfl, rfl⟩
  · unfold reserve
    rw [if_neg h]
  · have hno : ¬ ((0.95 : ℚ) + 0.10 ≤ 1) := by norm_num
    constructor
    · show (reserve ⟨1, 0.95, 0⟩ 0.10).1 = false
      unfold reserve
      rw [if_neg hno]
    · show (reserve ⟨1, 0.95, 0⟩ 0.10).2.spent = 0.95
      unfold reserve
      rw [if_neg hno]

theorem C2_budget_reserve_witness :
    0 ≤ (reserveAll ⟨1, 0, 0⟩ [0.6, 0.6, 0.3]).spent ∧
      (reserveAll ⟨1, 0, 0⟩ [0.6, 0.6, 0.3]).spent ≤ (1 : ℚ) :=
  C2_budget_reserve.2.2.2 [0.6, 0.6, 0.3] ⟨1, 0, 0⟩ (by norm_num) (by norm_num)
    (by intro c hc; fin_cases hc <;> norm_num)

/-! ## ScoreCombiner

Modelled from the spec (§4.7): if `ai_scores` is absent,
`combined_score = rule_score`; if present, `combined_score` is a fixed
weighted average across the six AI dimensions and the rule score (weights a
configuration constant summing to 1.0), clamped to `[0, 10]`. -/

/-- The six AI-analysis dimensions of §4.6 / the Phase 2 document. -/
structure AIScores where
  viral_score : ℚ
  emotional_intensity : ℚ
  controversy_level : ℚ
  relatability : ℚ
  educational_value : ℚ
  entertainment_factor : ℚ
deriving DecidableEq

/-- All six AI dimensions lie in `[0, 10]` (they are clamped at the
analysis boundary, §4.6). -/
def AIScores.InRange (a : AIScores) : Prop :=
  0 ≤ a.viral_score ∧ a.viral_score ≤ 10 ∧
  0 ≤ a.emotional_intensity ∧ a.emotional_intensity ≤ 10 ∧
  0 ≤ a.controversy_level ∧ a.controversy_level ≤ 10 ∧
  0 ≤ a.relatability ∧ a.relatability ≤ 10 ∧
  0 ≤ a.educational_value ∧ a.educational_value ≤ 10 ∧
  0 ≤ a.entertainment_factor ∧ a.entertainment_factor ≤ 10

/-- The configuration constant of §4.7: one weight per AI dimension plus
one for the rule score. -/
structure CombinerWeights where
  wViral : ℚ
  wEmotional : ℚ
  wControversy : ℚ
  wRelatability : ℚ
  wEducational : ℚ
  wEntertainment : ℚ
  wRule : ℚ
deriving DecidableEq

def CombinerWeights.total (w : CombinerWeights) : ℚ :=
  w.wViral + w.wEmotional + w.wControversy + w.wRelatability +
    w.wEducational + w.wEntertainment + w.wRule

def CombinerWeights.Nonneg (w : CombinerWeights) : Prop :=
  0 ≤ w.wViral ∧ 0 ≤ w.wEmotional ∧ 0 ≤ w.wControversy ∧ 0 ≤ w.wRelatability ∧
    0 ≤ w.wEducational ∧ 0 ≤ w.wEntertainment ∧ 0 ≤ w.wRule

/-- The weighted average of the six AI dimensions and the rule score. -/
def weightedSum (w : CombinerWeights) (rule : ℚ) (a : AIScores) : ℚ :=
  w.wViral * a.viral_score + w.wEmotional * a.emotional_intensity +
    w.wControversy * a.controversy_level + w.wRelatability * a.relatability +
    w.wEducational * a.educational_value +
    w.wEntertainment * a.entertainment_factor + w.wRule * rule

/-- Modelled from the spec: the ScoreCombiner of §4.7 (its backend source is
not part of this snapshot).  A pure function of the weights, the rule score
and the optional AI scores. -/
def combined_score (w : CombinerWeights) (rule : ℚ) (ai : Option AIScores) : ℚ :=
  match ai with
  | none => rule
  | some a => clampTen (weightedSum w rule a)

theorem weightedSum_mem {w : CombinerWeights} {rule : ℚ} {a : AIScores}
    (hw : w.Nonneg) (ht : w.total = 1) (hr0 : 0 ≤ rule) (hr10 : rule ≤ 10)
    (ha : a.InRange) : 0 ≤ weightedSum w rule a ∧ weightedSum w rule a ≤ 10 := by
  obtain ⟨w1, w2, w3, w4, w5, w6, w7⟩ := hw
  obtain ⟨a1, b1, a2, b2, a3, b3, a4, b4, a5, b5, a6, b6⟩ := ha
  unfold CombinerWeights.total at ht
  constructor
  · have t1 := mul_nonneg w1 a1
    have t2 := mul_nonneg w2 a2
    have t3 := mul_nonneg w3 a3
    have t4 := mul_nonneg w4 a4
    have t5 := mul_nonneg w5 a5
    have t6 := mul_nonneg w6 a6
    have t7 := mul_nonneg w7 hr0
    unfold weightedSum
    linarith
  · have t1 := mul_le_mul_of_nonneg_left b1 w1
    have t2 := mul_le_mul_of_nonneg_left b2 w2
    have t3 := mul_le_mul_of_nonneg_left b3 w3
    have t4 := mul_le_mul_of_nonneg_left b4 w4
    have t5 := mul_le_mul_of_nonneg_left b5 w5
    have t6 := mul_le_mul_of_nonneg_left b6 w6
    have t7 := mul_le_mul_of_nonneg_left hr10 w7
    unfold weightedSum
    linarith

/-- C3: with `ai_scores` absent, `combined_score` equals `rule_score`
exactly; with them present it is the fixed weighted average of the six AI
dimensions and the rule score clamped to `[0, 10]` (for a valid weight
configuration and in-range inputs the clamp is the identity, so the result
is exactly the weighted average); it is a pure function of these inputs. -/
theorem C3_combined_score :
    (∀ (w : CombinerWeights) (rule : ℚ), combined_score w rule none = rule) ∧
    (∀ (w : CombinerWeights) (rule : ℚ) (a : AIScores),
        combined_score w rule (some a) = clampTen (weightedSum w rule a) ∧
        0 ≤ combined_score w rule (some a) ∧ combined_score w rule (some a) ≤ 10) ∧
    (∀ (w : CombinerWeights) (rule : ℚ) (a : AIScores),
        w.Nonneg → w.total = 1 → 0 ≤ rule → rule ≤ 10 → a.InRange →
        combined_score w rule (some a) = weightedSum w rule a) := by
  refine ⟨fun w rule => rfl,
    fun w rule a => ⟨rfl, clampTen_nonneg _, clampTen_le_ten _⟩,
    fun w rule a hw ht hr0 hr10 ha => ?_⟩
  obtain ⟨h0, h10⟩ := weightedSum_mem hw ht hr0 hr10 ha
  exact clampTen_of_mem _ h0 h10

theorem C3_combined_score_witness :
    combined_score ⟨1/7, 1/7, 1/7, 1/7, 1/7, 1/7, 1/7⟩ 5
        (some ⟨5, 5, 5, 5, 5, 5⟩) =
      weightedSum ⟨1/7, 1/7, 1/7, 1/7, 1/7, 1/7, 1/7⟩ 5 ⟨5, 5, 5, 5, 5, 5⟩ :=
  C3_combined_score.2.2 ⟨1/7, 1/7, 1/7, 1/7, 1/7, 1/7, 1/7⟩ 5 ⟨5, 5, 5, 5, 5, 5⟩
    (by norm_num [CombinerWeights.Nonneg]) (by norm_num [CombinerWeights.total])
    (by norm_num) (by norm_num) (by norm_num [AIScores.InRange])

/-! ## Clip ranking

Modelled from the spec (§4.7/§8): clips are ordered by `combined_score`
descending, ties broken by earlier `start_time` — a deterministic order that
never depends on arbitrary insertion order. -/

/-- The spec's Clip (§3): the externally visible unit, here with the fields
the ranking rule reads (`combined_score`, `start_time`) plus its stable
identifier and end time. -/
structure Clip where
  id : String
  start_time : ℚ
  end_time : ℚ
  combined_score : ℚ
deriving DecidableEq

/-- The ranking order: higher `combined_score` first, ties broken by the
earlier `start_time`. -/
def rankRel (a b : Clip) : Prop :=
  b.combined_score < a.combined_score ∨
    (a.combined_score = b.combined_score ∧ a.start_time ≤ b.start_time)

instance : DecidableRel rankRel := fun a b => by
  unfold rankRel
  infer_instance

instance : IsTotal Clip rankRel := by
  constructor
  intro a b
  rcases lt_trichotomy a.combined_score b.combined_score with h | h | h
  · exact Or.inr (Or.inl h)
  · rcases le_total a.start_time b.start_time with h2 | h2
    · exact Or.inl (Or.inr ⟨h, h2⟩)
    · exact Or.inr (Or.inr ⟨h.symm, h2⟩)
  · exact Or.inl (Or.inl h)

instance : IsTrans Clip rankRel := by
  constructor
  rintro a b c (h1 | ⟨e1, l1⟩) (h2 | ⟨e2, l2⟩)
  · exact Or.inl (h2.trans h1)
  · exact Or.inl (e2 ▸ h1)
  · exact Or.inl (h2.trans_eq e1.symm)
  · exact Or.inr ⟨e1.trans e2, l1.trans l2⟩

/-- Modelled from the spec: the deterministic ranking of the final clip
list (ClipAssembler / §4.7; the backend ranking code is not part of this
snapshot), realised by a stable sort under `rankRel`. -/
def rankClips (clips : List Clip) : List Clip :=
  List.insertionSort rankRel clips

/-- Two sorted lists that are permutations of each other and whose elements
are pairwise antisymmetric under the sort order are equal. -/
theorem sorted_perm_eq :
    ∀ {l₁ l₂ : List Clip}, List.Perm l₁ l₂ → l₁.Sorted rankRel → l₂.Sorted rankRel →
      (∀ a ∈ l₁, ∀ b ∈ l₁, rankRel a b → rankRel b a → a = b) → l₁ = l₂ := by
  intro l₁
  induction l₁ with
  | nil =>
      intro l₂ hp _ _ _
      exact hp.nil_eq
  | cons a t₁ ih =>
      intro l₂ hp hs₁ hs₂ hanti
      cases l₂ with
      | nil => exact absurd hp.symm.nil_eq (by simp)
      | cons b t₂ =>
          have ha2 : a ∈ b :: t₂ := hp.subset (List.mem_cons_self a t₁)
          have hb1 : b ∈ a :: t₁ := hp.symm.subset (List.mem_cons_self b t₂)
          have hab : a = b := by
            rcases List.mem_cons.mp ha2 with h | hat2
            · exact h
            rcases List.mem_cons.mp hb1 with h | hbt1
            · exact h.symm
            have r1 : rankRel a b := List.rel_of_sorted_cons hs₁ b hbt1
            have r2 : rankRel b a := List.rel_of_sorted_cons hs₂ a hat2
            exact hanti a (List.mem_cons_self a t₁) b hb1 r1 r2
          subst hab
          have hp' : List.Perm t₁ t₂ := hp.cons_inv
          have heq : t₁ = t₂ :=
            ih hp' hs₁.of_cons hs₂.of_cons
              (fun x hx y hy => hanti x (List.mem_cons_of_mem a hx)
                y (List.mem_cons_of_mem a hy))
          rw [heq]

/-- C4: clip ranking is a deterministic function of `combined_score` and
`start_time`: the ranked list is a permutation of the input ordered by
`combined_score` descending with ties broken by earlier `start_time`, and —
provided no two distinct clips carry the same `(combined_score, start_time)`
pair — any two insertion orders of the same clips rank identically. -/
theorem C4_ranking_deterministic :
    (∀ clips : List Clip, List.Perm (rankClips clips) clips) ∧
    (∀ clips : List Clip, List.Pairwise (fun a b =>
        b.combined_score < a.combined_score ∨
          (a.combined_score = b.combined_score ∧ a.start_time ≤ b.start_time))
      (rankClips clips)) ∧
    (∀ l₁ l₂ : List Clip, List.Perm l₁ l₂ →
        (∀ a ∈ l₁, ∀ b ∈ l₁, a.combined_score = b.combined_score →
            a.start_time = b.start_time → a = b) →
        rankClips l₁ = rankClips l₂) := by
  refine ⟨fun clips => List.perm_insertionSort rankRel clips,
    fun clips => List.sorted_insertionSort rankRel clips,
    fun l₁ l₂ hperm hkey => ?_⟩
  have hanti : ∀ a ∈ rankClips l₁, ∀ b ∈ rankClips l₁,
      rankRel a b → rankRel b a → a = b := by
    intro a ha b hb r1 r2
    have ha1 : a ∈ l₁ := (List.perm_insertionSort rankRel l₁).subset ha
    have hb1 : b ∈ l₁ := (List.perm_insertionSort rankRel l₁).subset hb
    have hsc : a.combined_score = b.combined_score := by
      rcases r1 with h1 | ⟨h1, _⟩
      · rcases r2 with h2 | ⟨h2, _⟩
        · exact absurd h1 (not_lt.mpr h2.le)
        · exact h2.symm
      · exact h1
    have hst : a.start_time = b.start_time := by
      rcases r1 with h1 | ⟨_, h1⟩
      · exact absurd h1 (not_lt.mpr hsc.le)
      rcases r2 with h2 | ⟨_, h2⟩
      · exact absurd h2 (not_lt.mpr hsc.ge)
      · exact le_antisymm h1 h2
    exact hkey a ha1 b hb1 hsc hst
  exact sorted_perm_eq
    (((List.perm_insertionSort rankRel l₁).trans hperm).trans
      (List.perm_insertionSort rankRel l₂).symm)
    (List.sorted_insertionSort rankRel l₁)
    (List.sorted_insertionSort rankRel l₂) hanti

theorem C4_ranking_deterministic_witness :
    rankClips [⟨"a", 0, 15, 7⟩, ⟨"b", 15, 30, 9⟩] =
      rankClips [⟨"b", 15, 30, 9⟩, ⟨"a", 0, 15, 7⟩] :=
  C4_ranking_deterministic.2.2 [⟨"a", 0, 15, 7⟩, ⟨"b", 15, 30, 9⟩]
    [⟨"b", 15, 30, 9⟩, ⟨"a", 0, 15, 7⟩]
    (List.Perm.swap (⟨"b", 15, 30, 9⟩ : Clip) (⟨"a", 0, 15, 7⟩ : Clip) [])
    (by
      intro a ha b hb hsc hst
      fin_cases ha <;> fin_cases hb <;>
        first
          | rfl
          | (exfalso; norm_num at hsc))

/-! ## RuleBasedScorer

Modelled from the spec (§4.3): given `transcript` (possibly empty) and a
segment's duration, compute a base score starting at 5.0, adjusted by a
positive-keyword term, a negative-keyword (filler/silence) term, a
length-fit term (bonus when the estimated spoken duration is within a
target band, penalty outside it) and punctuation-density terms (exclamation
and question density with a cap), clamped to `[0, 10]`; plus a `reasoning`
list with one human-readable phrase per triggered factor, positive factors
first.  A pure function of its inputs — no external calls, never fails. -/

/-- Split a character stream into space-separated nonempty words
(`cur` accumulates the current word reversed). -/
def splitWordsAux (cur : List Char) : List Char → List (List Char)
  | [] => if cur = [] then [] else [cur.reverse]
  | c :: cs =>
    if c = ' ' then
      if cur = [] then splitWordsAux [] cs
      else cur.reverse :: splitWordsAux [] cs
    else splitWordsAux (c :: cur) cs

/-- The words of a transcript. -/
def wordsOf (t : String) : List String :=
  (splitWordsAux [] t.data).map (fun w => String.mk w)

/-- Number of transcript words that appear in a keyword list. -/
def keywordHits (keys : List String) (ws : List String) : ℕ :=
  (ws.filter (fun w => w ∈ keys)).length

/-- A bounded per-factor contribution: each hit adds `bonus`, the whole
factor is capped at `cap`, and an untriggered factor contributes nothing. -/
def cappedTerm (hits : ℕ) (bonus cap : ℚ) : ℚ :=
  if hits = 0 then 0 else min ((hits : ℚ) * bonus) cap

/-- The scorer's configuration constants: keyword lists, per-factor bonus
and cap magnitudes, the speaking-rate estimate and target band for the
length-fit term, and the human-readable reasoning phrases. -/
structure ScorerConfig where
  positiveKeywords : List String
  negativeKeywords : List String
  positiveBonus : ℚ
  positiveCap : ℚ
  negativePenalty : ℚ
  negativeCap : ℚ
  secondsPerWord : ℚ
  bandLowFrac : ℚ
  bandHighFrac : ℚ
  lengthBonus : ℚ
  lengthPenalty : ℚ
  exclaimBonus : ℚ
  exclaimCap : ℚ
  questionBonus : ℚ
  questionCap : ℚ
  notePositive : String
  noteNegative : String
  noteExclaim : String
  noteQuestion : String
  noteLengthFit : String
  noteLengthMiss : String

/-- Estimated spoken duration of a transcript with `wordCount` words. -/
def estSpoken (cfg : ScorerConfig) (wordCount : ℕ) : ℚ :=
  (wordCount : ℚ) * cfg.secondsPerWord

/-- Whether the estimated spoken duration falls in the target band
(a band proportional to the segment duration). -/
def inLengthBand (cfg : ScorerConfig) (wordCount : ℕ) (duration : ℚ) : Prop :=
  cfg.bandLowFrac * duration ≤ estSpoken cfg wordCount ∧
    estSpoken cfg wordCount ≤ cfg.bandHighFrac * duration

instance (cfg : ScorerConfig) (wordCount : ℕ) (duration : ℚ) :
    Decidable (inLengthBand cfg wordCount duration) := by
  unfold inLengthBand
  infer_instance

/-- The length-fit adjustment: bonus inside the band, penalty outside. -/
def lengthFitTerm (cfg : ScorerConfig) (wordCount : ℕ) (duration : ℚ) : ℚ :=
  if inLengthBand cfg wordCount duration then cfg.lengthBonus
  else -cfg.lengthPenalty

/-- The length-fit reasoning phrase (always evaluated, fit or miss). -/
def lengthNote (cfg : ScorerConfig) (wordCount : ℕ) (duration : ℚ) : String :=
  if inLengthBand cfg wordCount duration then cfg.noteLengthFit
  else cfg.noteLengthMiss

/-- The total adjustment applied on top of the base score 5.0. -/
def ruleScoreAdjust (cfg : ScorerConfig) (t : String) (duration : ℚ) : ℚ :=
  let ws := wordsOf t
  cappedTerm (keywordHits cfg.positiveKeywords ws) cfg.positiveBonus cfg.positiveCap
    - cappedTerm (keywordHits cfg.negativeKeywords ws) cfg.negativePenalty cfg.negativeCap
    + lengthFitTerm cfg ws.length duration
    + cappedTerm (t.data.count '!') cfg.exclaimBonus cfg.exclaimCap
    + cappedTerm (t.data.count '?') cfg.questionBonus cfg.questionCap

/-- Modelled from the spec: the RuleBasedScorer's score (§4.3; the backend
`scorer.py` is not part of this snapshot).  Base 5.0 plus the bounded
adjustments, clamped to `[0, 10]`. -/
def ruleScore (cfg : ScorerConfig) (t : String) (duration : ℚ) : ℚ :=
  clampTen (5 + ruleScoreAdjust cfg t duration)

/-- Modelled from the spec: the RuleBasedScorer's `reasoning` list — one
phrase per triggered factor, positive factors before negative ones, the
always-evaluated length-fit phrase last. -/
def ruleReasoning (cfg : ScorerConfig) (t : String) (duration : ℚ) : List String :=
  let ws := wordsOf t
  (if keywordHits cfg.positiveKeywords ws ≠ 0 then [cfg.notePositive] else [])
    ++ (if t.data.count '!' ≠ 0 then [cfg.noteExclaim] else [])
    ++ (if t.data.count '?' ≠ 0 then [cfg.noteQuestion] else [])
    ++ (if keywordHits cfg.negativeKeywords ws ≠ 0 then [cfg.noteNegative] else [])
    ++ [lengthNote cfg ws.length duration]

/-- C5: for every transcript (possibly empty) and duration, the rule-based
score lies in `[0, 10]` and equals the base score `5.0` plus the factor
adjustments, clamped — a total, deterministic function of
`(transcript, duration)` alone. -/
theorem C5_rule_score_bounds :
    ∀ (cfg : ScorerConfig) (transcript : String) (duration : ℚ),
      0 ≤ ruleScore cfg transcript duration ∧
        ruleScore cfg transcript duration ≤ 10 ∧
        ruleScore cfg transcript duration =
          clampTen (5 + ruleScoreAdjust cfg transcript duration) :=
  fun _ _ _ => ⟨clampTen_nonneg _, clampTen_le_ten _, rfl⟩

/-- C8: on the empty transcript with duration 15 s, no keyword, filler or
punctuation factor triggers: the score is exactly the base 5.0 adjusted by
the length-fit term alone, and the reasoning list is exactly the one
length-fit phrase. -/
theorem C8_empty_transcript :
    ∀ cfg : ScorerConfig,
      ruleScore cfg "" 15 = clampTen (5 + lengthFitTerm cfg 0 15) ∧
      ruleReasoning cfg "" 15 = [lengthNote cfg 0 15] := by
  intro cfg
  have hw : wordsOf "" = [] := rfl
  have hadj : ruleScoreAdjust cfg "" 15 = lengthFitTerm cfg 0 15 := by
    unfold ruleScoreAdjust
    rw [hw]
    simp [keywordHits, cappedTerm]
  constructor
  · unfold ruleScore
    rw [hadj]
  · unfold ruleReasoning
    rw [hw]
    simp [keywordHits]

/-! ## Per-video budget gating

Modelled from the spec (§7/§8): `BudgetExceeded` is not an error but a
gating condition — once `BudgetTracker.reserve` returns `false` during one
video's processing, every remaining segment of that video is scored in
fallback mode (no further AI calls), and this is surfaced per segment as a
flag, never as a failure. -/

/-- What the pipeline records per segment: whether the AI path ran, and
whether this segment is the one at which `reserve` came back `false`. -/
structure SegmentOutcome where
  aiApplied : Bool
  budgetDenied : Bool
deriving DecidableEq

/-- Modelled from the spec: one video's segment loop (§4.6/§7; the backend
pipeline source is not part of this snapshot).  Each segment carries the
estimated cost of its AI call; `fallback` latches once a reservation is
denied.  Returns the per-segment outcomes and the final budget state. -/
def processSegments (st : BudgetState) (fallback : Bool) :
    List ℚ → List SegmentOutcome × BudgetState
  | [] => ([], st)
  | cost :: rest =>
    if fallback then
      let next := processSegments st true rest
      (⟨false, false⟩ :: next.1, next.2)
    else
      let res := reserve st cost
      if res.1 then
        let next := processSegments res.2 false rest
        (⟨true, false⟩ :: next.1, next.2)
      else
        let next := processSegments res.2 true rest
        (⟨false, true⟩ :: next.1, next.2)

theorem processSegments_fallback (st : BudgetState) (cs : List ℚ) :
    processSegments st true cs = (cs.map fun _ => ⟨false, false⟩, st) := by
  induction cs with
  | nil => rfl
  | cons c rest ih =>
      show (⟨false, false⟩ :: (processSegments st true rest).1,
        (processSegments st true rest).2) = _
      rw [ih]
      rfl

theorem processSegments_length (st : BudgetState) (fb : Bool) (cs : List ℚ) :
    (processSegments st fb cs).1.length = cs.length := by
  induction cs generalizing st fb with
  | nil => rfl
  | cons c rest ih =>
      by_cases hfb : fb = true
      · subst hfb
        rw [processSegments_fallback]
        simp
      · replace hfb : fb = false := by
          cases fb
          · rfl
          · exact absurd rfl hfb
        subst hfb
        show (processSegments st false (c :: rest)).1.length = rest.length + 1
        unfold processSegments
        by_cases hr : (reserve st c).1
        · rw [if_neg Bool.false_ne_true, if_pos hr]
          simpa using ih (reserve st c).2 false
        · rw [if_neg Bool.false_ne_true, if_neg hr]
          simpa using ih (reserve st c).2 true

theorem processSegments_denied_latch (cs : List ℚ) :
    ∀ (st : BudgetState) (i j : ℕ) (o o' : SegmentOutcome), i < j →
      (processSegments st false cs).1[i]? = some o → o.budgetDenied = true →
      (processSegments st false cs).1[j]? = some o' → o'.aiApplied = false := by
  induction cs with
  | nil =>
      intro st i j o o' _ hi _ _
      simp [processSegments] at hi
  | cons c rest ih =>
      intro st i j o o' hij hi ho hj
      have hexp : (processSegments st false (c :: rest)).1 =
          (if (reserve st c).1
            then ⟨true, false⟩ :: (processSegments (reserve st c).2 false rest).1
            else ⟨false, true⟩ :: (processSegments (reserve st c).2 true rest).1) := by
        by_cases hr : (reserve st c).1
        · rw [if_pos hr]
          show (if false = true then _ else
            (if (reserve st c).1 then _ else _ : List SegmentOutcome × BudgetState)).1 = _
          rw [if_neg Bool.false_ne_true, if_pos hr]
        · rw [if_neg hr]
          show (if false = true then _ else
            (if (reserve st c).1 then _ else _ : List SegmentOutcome × BudgetState)).1 = _
          rw [if_neg Bool.false_ne_true, if_neg hr]
      by_cases hr : (reserve st c).1
      · rw [hexp, if_pos hr] at hi hj
        cases i with
        | zero =>
            rw [List.getElem?_cons_zero] at hi
            obtain rfl : (⟨true, false⟩ : SegmentOutcome) = o := Option.some.inj hi
            simp at ho
        | succ i' =>
            cases j with
            | zero => omega
            | succ j' =>
                simp only [List.getElem?_cons_succ] at hi hj
                exact ih (reserve st c).2 i' j' o o' (by omega) hi ho hj
      · rw [hexp, if_neg hr] at hi hj
        cases j with
        | zero => omega
        | succ j' =>
            simp only [List.getElem?_cons_succ] at hj
            rw [processSegments_fallback] at hj
            rw [List.getElem?_map] at hj
            obtain ⟨y, _, hfb⟩ := Option.map_eq_some'.mp hj
            rw [← hfb]

/-- C6: once `reserve` returns `false` at some segment of a video, no later
segment of that video gets an AI call — every later outcome has
`aiApplied = false` — and the loop still yields one outcome per segment
(fallback is a flag, not a failure). -/
theorem C6_budget_latch :
    (∀ (cs : List ℚ) (st : BudgetState) (i j : ℕ) (o o' : SegmentOutcome),
        i < j →
        (processSegments st false cs).1[i]? = some o → o.budgetDenied = true →
        (processSegments st false cs).1[j]? = some o' → o'.aiApplied = false) ∧
    (∀ (cs : List ℚ) (st : BudgetState) (fb : Bool),
        (processSegments st fb cs).1.length = cs.length) :=
  ⟨fun cs st => processSegments_denied_latch cs st,
    fun cs st fb => processSegments_length st fb cs⟩

theorem C6_budget_latch_witness :
    (processSegments ⟨1, 0, 0⟩ false [2, 1]).1[0]? = some ⟨false, true⟩ ∧
    (processSegments ⟨1, 0, 0⟩ false [2, 1]).1[1]? = some ⟨false, false⟩ ∧
    (⟨false, false⟩ : SegmentOutcome).aiApplied = false := by
  have h0 : (processSegments ⟨1, 0, 0⟩ false [2, 1]).1[0]? = some ⟨false, true⟩ := by
    norm_num [processSegments, reserve]
  have h1 : (processSegments ⟨1, 0, 0⟩ false [2, 1]).1[1]? = some ⟨false, false⟩ := by
    norm_num [processSegments, reserve]
  exact ⟨h0, h1,
    C6_budget_latch.1 [2, 1] ⟨1, 0, 0⟩ 0 1 ⟨false, true⟩ ⟨false, false⟩
      (by norm_num) h0 rfl h1⟩

/-! ## Frontend: `extractVideoId` (`frontend/src/utils/video.ts`)

Embedded from the TypeScript source.  The WHATWG `URL` constructor is an
external collaborator: it is modelled as an arbitrary parse function
returning the parts the code reads (`hostname`, `pathname`,
`searchParams`), with `none` standing for the constructor throwing. -/

/-- Test `startsWithChars pat s` — `pat` is an initial run of `s`. -/
def startsWithChars : List Char → List Char → Bool
  | [], _ => true
  | _ :: _, [] => false
  | p :: ps, c :: cs => p = c && startsWithChars ps cs

/-- Test `hasSubstrChars pat s` — `pat` occurs contiguously in `s`
(JavaScript's `String.prototype.includes`). -/
def hasSubstrChars (pat : List Char) : List Char → Bool
  | [] => pat.isEmpty
  | c :: cs => startsWithChars pat (c :: cs) || hasSubstrChars pat cs

/-- Substring containment on strings (`hay.includes(pat)` in the source). -/
def containsSub (hay pat : String) : Bool :=
  hasSubstrChars pat.data hay.data

/-- The parts of a parsed URL the source reads. -/
structure URLParts where
  hostname : String
  pathname : String
  searchParams : List (String × String)

/-- Lookup `searchParams.get(k)`: the value of the first parameter named `k`,
null (`none`) when absent. -/
def getParam (ps : List (String × String)) (k : String) : Option String :=
  match ps with
  | [] => none
  | (k', v) :: rest => if k' = k then some v else getParam rest k

/-- Function `extractVideoId` from `frontend/src/utils/video.ts`, parameterised by
the URL-parsing collaborator; `parseURL url = none` models the `URL`
constructor throwing (caught, returning null). -/
def extractVideoId (parseURL : String → Option URLParts) (url : String) :
    Option String :=
  match parseURL url with
  | none => none
  | some u =>
    if containsSub u.hostname "youtube.com" || containsSub u.hostname "youtu.be" then
      if containsSub u.hostname "youtu.be" then some (u.pathname.drop 1)
      else getParam u.searchParams "v"
    else none

theorem string_drop_one_slash (rest : String) : ("/" ++ rest).drop 1 = rest := by
  rw [String.drop_eq]
  show String.mk (('/' :: rest.data).drop 1) = rest
  rfl

/-- C9: `extractVideoId` is total and returns: `none` when the URL does not
parse or its hostname contains neither `youtube.com` nor `youtu.be`; the
path with the leading character (the slash) removed when the hostname
contains `youtu.be`; otherwise the `v` query parameter (or `none` when
absent). -/
theorem C9_extractVideoId :
    ∀ (parseURL : String → Option URLParts) (url : String),
      (parseURL url = none → extractVideoId parseURL url = none) ∧
      (∀ u, parseURL url = some u →
        (containsSub u.hostname "youtube.com" = false →
          containsSub u.hostname "youtu.be" = false →
          extractVideoId parseURL url = none) ∧
        (containsSub u.hostname "youtu.be" = true →
          extractVideoId parseURL url = some (u.pathname.drop 1)) ∧
        (containsSub u.hostname "youtu.be" = true →
          ∀ rest, u.pathname = "/" ++ rest →
          extractVideoId parseURL url = some rest) ∧
        (containsSub u.hostname "youtube.com" = true →
          containsSub u.hostname "youtu.be" = false →
          extractVideoId parseURL url = getParam u.searchParams "v")) := by
  intro parseURL url
  constructor
  · intro hnone
    unfold extractVideoId
    rw [hnone]
  · intro u hu
    refine ⟨?_, ?_, ?_, ?_⟩
    · intro h1 h2
      unfold extractVideoId
      rw [hu]
      simp [h1, h2]
    · intro h2
      unfold extractVideoId
      rw [hu]
      simp [h2]
    · intro h2 rest hpath
      unfold extractVideoId
      rw [hu]
      simp only [h2, Bool.or_true, if_true]
      rw [hpath, string_drop_one_slash]
    · intro h1 h2
      unfold extractVideoId
      rw [hu]
      simp [h1, h2]

theorem C9_extractVideoId_witness :
    extractVideoId (fun _ => some ⟨"www.youtube.com", "/watch", [("v", "abc123")]⟩)
        "https://www.youtube.com/watch?v=abc123" =
      getParam [("v", "abc123")] "v" :=
  ((C9_extractVideoId (fun _ => some ⟨"www.youtube.com", "/watch", [("v", "abc123")]⟩)
      "https://www.youtube.com/watch?v=abc123").2
    ⟨"www.youtube.com", "/watch", [("v", "abc123")]⟩ rfl).2.2.2
    (by decide) (by decide)

/-! ## Frontend: the saved-clips store

Embedded from the TypeScript storage module (`loadSavedClips`,
`saveClipsToStorage`, `addClipToStorage`, `removeClipFromStorage`).  The
browser's `localStorage` slot under the `savedClips` key is modelled as
`Option (List FrontClip)` — the parsed content of the stored JSON, `none`
when the key is absent; `JSON.parse`/`JSON.stringify` are treated as
inverse collaborators (the claim assumes the storage operations succeed). -/

/-- The `Clip` record of `frontend/src/types/api.ts`. -/
structure FrontClip where
  id : String
  segment_id : String
  score : ℚ
  start_time : ℚ
  end_time : ℚ
  transcript : String
  audio_path : String
  video_path : String
  reasoning : String
  viral_score : Option ℚ := none
  emotional_intensity : Option ℚ := none
  controversy_level : Option ℚ := none
  relatability : Option ℚ := none
  educational_value : Option ℚ := none
  entertainment_factor : Option ℚ := none
  combined_score : Option ℚ := none
  api_usage_tokens : Option ℕ := none
  api_usage_cost : Option ℚ := none
deriving DecidableEq

/-- The parsed content of the `savedClips` localStorage slot. -/
abbrev ClipStore := Option (List FrontClip)

/-- Operation `loadSavedClips()`: parse the stored list, `[]` when absent. -/
def loadSavedClips (s : ClipStore) : List FrontClip :=
  s.getD []

/-- Operation `saveClipsToStorage(clips)`: overwrite the slot. -/
def saveClipsToStorage (clips : List FrontClip) (_s : ClipStore) : ClipStore :=
  some clips

/-- Operation `addClipToStorage(clip)`: append `clip` to the loaded list, persist it,
return the new list. -/
def addClipToStorage (clip : FrontClip) (s : ClipStore) :
    List FrontClip × ClipStore :=
  let existingClips := loadSavedClips s
  let newClips := existingClips ++ [clip]
  (newClips, saveClipsToStorage newClips s)

/-- Operation `removeClipFromStorage(clipId)`: drop every clip whose `id` equals
`clipId`, persist the rest, return them. -/
def removeClipFromStorage (clipId : String) (s : ClipStore) :
    List FrontClip × ClipStore :=
  let existingClips := loadSavedClips s
  let newClips := existingClips.filter (fun c => c.id ≠ clipId)
  (newClips, saveClipsToStorage newClips s)

/-- C10: assuming the underlying localStorage operations succeed,
`addClipToStorage` returns and persists the previously loaded list with the
clip appended at the end; `removeClipFromStorage` returns and persists the
previous list with every clip of that id removed, so no clip with that id
remains loadable afterwards; and neither operation touches the other
stored clips. -/
theorem C10_clip_store :
    (∀ (s : ClipStore) (clip : FrontClip),
        (addClipToStorage clip s).1 = loadSavedClips s ++ [clip] ∧
        loadSavedClips (addClipToStorage clip s).2 = loadSavedClips s ++ [clip]) ∧
    (∀ (s : ClipStore) (cid : String),
        (removeClipFromStorage cid s).1 =
          (loadSavedClips s).filter (fun c => c.id ≠ cid) ∧
        loadSavedClips (removeClipFromStorage cid s).2 =
          (loadSavedClips s).filter (fun c => c.id ≠ cid)) ∧
    (∀ (s : ClipStore) (cid : String) (c : FrontClip),
        c ∈ loadSavedClips (removeClipFromStorage cid s).2 → c.id ≠ cid) ∧
    (∀ (s : ClipStore) (cid : String) (c : FrontClip),
        c ∈ loadSavedClips s → c.id ≠ cid →
        c ∈ loadSavedClips (removeClipFromStorage cid s).2) ∧
    (∀ (s : ClipStore) (clip c : FrontClip),
        c ∈ loadSavedClips s → c ∈ loadSavedClips (addClipToStorage clip s).2) := by
  refine ⟨fun s clip => ⟨rfl, rfl⟩, fun s cid => ⟨rfl, rfl⟩, ?_, ?_, ?_⟩
  · intro s cid c hc
    have : c ∈ (loadSavedClips s).filter (fun c => c.id ≠ cid) := hc
    have := List.of_mem_filter this
    simpa using this
  · intro s cid c hc hne
    show c ∈ (loadSavedClips s).filter (fun c => c.id ≠ cid)
    exact List.mem_filter.mpr ⟨hc, by simpa using hne⟩
  · intro s clip c hc
    show c ∈ loadSavedClips s ++ [clip]
    exact List.mem_append_left _ hc

/-- Sample clips for exercising the store. -/
def clipA : FrontClip :=
  { id := "a", segment_id := "s1", score := 5, start_time := 0, end_time := 15,
    transcript := "t", audio_path := "", video_path := "", reasoning := "r" }

def clipB : FrontClip :=
  { id := "b", segment_id := "s2", score := 6, start_time := 15, end_time := 30,
    transcript := "u", audio_path := "", video_path := "", reasoning := "q" }

theorem C10_clip_store_witness :
    clipA ∈ loadSavedClips (removeClipFromStorage "b" (some [clipA, clipB])).2 :=
  C10_clip_store.2.2.2.1 (some [clipA, clipB]) "b" clipA
    (List.mem_cons_self _ _) (by simp [clipA])
